import Mathlib

/-!
Verification of the mossina harvesting core (Wizzair schedule scraper).

Shallow embedding of the functions in `src/scraper/wizzair/schedules.py`,
`src/scraper/wizzair/api.py` and the SQLite schema of `src/db.py`.
Python strings are modelled as `List Char`, timestamps as rationals,
SQLite tables as lists of rows in insertion order.
-/

namespace Mossina

/-- Python strings, modelled as their character sequences. -/
abbrev Str := List Char

/-! ### Route pairer (`_pair_routes`, schedules.py lines 53-63)

`_pair_routes` walks the directed route list, maps each route `(a, b)` to
the undirected key `(min(a, b), max(a, b))`, skips routes whose key was
already seen, and keeps the first representative in input order. -/

/-- The undirected key `(min(a,b), max(a,b))` computed for each route. -/
def undirKey {α : Type} [LinearOrder α] (p : α × α) : α × α :=
  (min p.1 p.2, max p.1 p.2)

/-- Loop of `_pair_routes`: `seen` is the set of keys already emitted. -/
def pairRoutesGo {α : Type} [LinearOrder α] :
    List (α × α) → List (α × α) → List (α × α)
  | [], _ => []
  | r :: rest, seen =>
    let key := undirKey r
    if key ∈ seen then pairRoutesGo rest seen
    else r :: pairRoutesGo rest (key :: seen)

/-- `_pair_routes(routes)`: deduplicate directed routes by undirected key. -/
def pairRoutes {α : Type} [LinearOrder α] (routes : List (α × α)) :
    List (α × α) :=
  pairRoutesGo routes []

theorem undirKey_swap {α : Type} [LinearOrder α] (a b : α) :
    undirKey (b, a) = undirKey (a, b) := by
  simp [undirKey, min_comm, max_comm]

theorem pairRoutesGo_length_le {α : Type} [LinearOrder α]
    (rs : List (α × α)) (seen : List (α × α)) :
    (pairRoutesGo rs seen).length ≤ rs.length := by
  induction rs generalizing seen with
  | nil => simp [pairRoutesGo]
  | cons r rest ih =>
    by_cases h : undirKey r ∈ seen
    · simp only [pairRoutesGo, h, if_pos]
      exact le_trans (ih seen) (Nat.le_succ _)
    · simp only [pairRoutesGo, h, if_neg, not_false_iff, List.length_cons]
      exact Nat.succ_le_succ (ih _)

/-- Membership of a key among the keys emitted by the loop. -/
theorem mem_keys_pairRoutesGo {α : Type} [LinearOrder α]
    (rs : List (α × α)) (seen : List (α × α)) (k : α × α) :
    k ∈ (pairRoutesGo rs seen).map undirKey ↔
      k ∈ rs.map undirKey ∧ k ∉ seen := by
  induction rs generalizing seen with
  | nil => simp [pairRoutesGo]
  | cons r rest ih =>
    by_cases h : undirKey r ∈ seen
    · simp only [pairRoutesGo, h, if_pos, List.map_cons, List.mem_cons]
      rw [ih]
      constructor
      · rintro ⟨hk, hns⟩
        exact ⟨Or.inr hk, hns⟩
      · rintro ⟨hk | hk, hns⟩
        · exact absurd (hk ▸ h) hns
        · exact ⟨hk, hns⟩
    · simp only [pairRoutesGo, h, if_neg, not_false_iff, List.map_cons,
        List.mem_cons]
      rw [ih]
      constructor
      · rintro (hk | ⟨hk, hns⟩)
        · exact ⟨Or.inl hk, hk ▸ h⟩
        · refine ⟨Or.inr hk, ?_⟩
          intro hmem
          exact hns (List.mem_cons_of_mem _ hmem)
      · rintro ⟨hk | hk, hns⟩
        · exact Or.inl hk
        · by_cases hek : k = undirKey r
          · exact Or.inl hek
          · exact Or.inr ⟨hk, by simp [hek, hns]⟩

/-- The keys of the emitted pairs are pairwise distinct. -/
theorem nodup_keys_pairRoutesGo {α : Type} [LinearOrder α]
    (rs : List (α × α)) (seen : List (α × α)) :
    ((pairRoutesGo rs seen).map undirKey).Nodup := by
  induction rs generalizing seen with
  | nil => simp [pairRoutesGo]
  | cons r rest ih =>
    by_cases h : undirKey r ∈ seen
    · simpa only [pairRoutesGo, h, if_pos] using ih seen
    · simp only [pairRoutesGo, h, if_neg, not_false_iff, List.map_cons,
        List.nodup_cons]
      refine ⟨?_, ih _⟩
      intro hmem
      rw [mem_keys_pairRoutesGo] at hmem
      exact hmem.2 (List.mem_cons_self _ _)

/-- Exact multiplicity of a key in the loop's output. -/
theorem countP_key_pairRoutesGo {α : Type} [LinearOrder α]
    (rs : List (α × α)) (seen : List (α × α)) (k : α × α) :
    (pairRoutesGo rs seen).countP (fun q => undirKey q = k) =
      if k ∈ rs.map undirKey ∧ k ∉ seen then 1 else 0 := by
  induction rs generalizing seen with
  | nil => simp [pairRoutesGo]
  | cons r rest ih =>
    by_cases h : undirKey r ∈ seen
    · rw [pairRoutesGo]
      simp only [h, if_pos]
      rw [ih]
      by_cases hk : k = undirKey r
      · subst hk
        simp [h]
      · have hiff : (k ∈ (r :: rest).map undirKey ∧ k ∉ seen) ↔
            (k ∈ rest.map undirKey ∧ k ∉ seen) := by
          rw [List.map_cons, List.mem_cons]
          constructor
          · rintro ⟨hl | hl, hs⟩
            · exact absurd hl hk
            · exact ⟨hl, hs⟩
          · rintro ⟨hl, hs⟩
            exact ⟨Or.inr hl, hs⟩
        rw [if_congr hiff rfl rfl]
    · rw [pairRoutesGo]
      simp only [h, if_neg, not_false_iff]
      rw [List.countP_cons, ih]
      by_cases hk : k = undirKey r
      · subst hk
        simp [h, List.mem_cons]
      · have hrk : ¬ (undirKey r = k) := fun he => hk he.symm
        have hiff : (k ∈ rest.map undirKey ∧ k ∉ undirKey r :: seen) ↔
            (k ∈ (r :: rest).map undirKey ∧ k ∉ seen) := by
          rw [List.map_cons, List.mem_cons, List.mem_cons]
          constructor
          · rintro ⟨hl, hs⟩
            exact ⟨Or.inr hl, fun hm => hs (Or.inr hm)⟩
          · rintro ⟨hl | hl, hs⟩
            · exact absurd hl hk
            · exact ⟨hl, fun hm => hm.elim hk hs⟩
        rw [if_congr hiff rfl rfl]
        simp [hrk]

/-- Length of the pairer output equals the number of distinct undirected
keys of the input. -/
theorem pairRoutes_length_eq_card_keys {α : Type} [LinearOrder α]
    (rs : List (α × α)) :
    (pairRoutes rs).length = (rs.map undirKey).toFinset.card := by
  have hnd := nodup_keys_pairRoutesGo rs ([] : List (α × α))
  have hsame : ((pairRoutesGo rs []).map undirKey).toFinset =
      (rs.map undirKey).toFinset := by
    apply Finset.ext
    intro k
    simp only [List.mem_toFinset]
    rw [mem_keys_pairRoutesGo]
    simp
  calc (pairRoutes rs).length
      = ((pairRoutesGo rs []).map undirKey).length := by
        simp [pairRoutes]
    _ = ((pairRoutesGo rs []).map undirKey).toFinset.card :=
        (List.toFinset_card_of_nodup hnd).symm
    _ = (rs.map undirKey).toFinset.card := by rw [hsame]

/-- If each directed route is distinct, has distinct endpoints, and its
reverse is also present, each undirected key has at least two directed
routes above it, so there are at most half as many keys as routes. -/
theorem card_keys_le_half {α : Type} [LinearOrder α] (rs : List (α × α))
    (hnd : rs.Nodup)
    (hsym : ∀ p ∈ rs, p.1 ≠ p.2 ∧ (p.2, p.1) ∈ rs) :
    2 * (rs.map undirKey).toFinset.card ≤ rs.length := by
  classical
  set s : Finset (α × α) := rs.toFinset with hs
  set t : Finset (α × α) := (rs.map undirKey).toFinset with ht
  have hmaps : ∀ p ∈ s, undirKey p ∈ t := by
    intro p hp
    rw [hs, List.mem_toFinset] at hp
    rw [ht, List.mem_toFinset]
    exact List.mem_map_of_mem _ hp
  have hcard : s.card = ∑ k ∈ t, (s.filter (fun p => undirKey p = k)).card :=
    Finset.card_eq_sum_card_fiberwise hmaps
  have hfiber : ∀ k ∈ t, 2 ≤ (s.filter (fun p => undirKey p = k)).card := by
    intro k hk
    rw [ht, List.mem_toFinset, List.mem_map] at hk
    obtain ⟨p, hp, hpk⟩ := hk
    obtain ⟨hne, hrev⟩ := hsym p hp
    have hswap : undirKey (p.2, p.1) = undirKey p := by
      simp [undirKey, min_comm, max_comm]
    have h1 : p ∈ s.filter (fun q => undirKey q = k) := by
      rw [Finset.mem_filter]
      exact ⟨List.mem_toFinset.mpr hp, hpk⟩
    have h2 : (p.2, p.1) ∈ s.filter (fun q => undirKey q = k) := by
      rw [Finset.mem_filter]
      exact ⟨List.mem_toFinset.mpr hrev, hswap.trans hpk⟩
    have hpp : p ≠ (p.2, p.1) := by
      intro he
      exact hne (congrArg Prod.fst he)
    have : 1 < (s.filter (fun q => undirKey q = k)).card :=
      Finset.one_lt_card.mpr ⟨p, h1, (p.2, p.1), h2, hpp⟩
    omega
  have hsum : ∑ _k ∈ t, 2 ≤ ∑ k ∈ t, (s.filter (fun p => undirKey p = k)).card :=
    Finset.sum_le_sum hfiber
  have hconst : ∑ _k ∈ t, 2 = 2 * t.card := by
    rw [Finset.sum_const, smul_eq_mul, mul_comm]
  have hlen : s.card = rs.length := by
    rw [hs]
    exact List.toFinset_card_of_nodup hnd
  omega

/-- C1: the claim's bound `output ≤ ⌈directed_count/2⌉` fails as stated:
the two-route input `[(0,1), (2,3)]` (no reverse directions present)
yields two pairs, exceeding ⌈2/2⌉ = 1. -/
theorem C1_pairer_counterexample :
    ¬ ((pairRoutes [((0 : ℕ), (1 : ℕ)), ((2 : ℕ), (3 : ℕ))]).length ≤
        ([((0 : ℕ), (1 : ℕ)), ((2 : ℕ), (3 : ℕ))].length + 1) / 2) := by
  decide

/-- C1 (amended): the pairer output never exceeds the input size; every
directed route `(a,b)` of the input is represented by exactly one output
pair whose undirected key is `(min(a,b), max(a,b))`; and when the input
is duplicate-free, loop-free, and contains the reverse of each of its
routes, the output has size at most ⌊directed_count/2⌋
(in particular at most ⌈directed_count/2⌉). -/
theorem C1_pairer_amended {α : Type} [LinearOrder α] (routes : List (α × α)) :
    (pairRoutes routes).length ≤ routes.length
    ∧ (∀ p ∈ routes,
        (pairRoutes routes).countP (fun q => undirKey q = undirKey p) = 1)
    ∧ (routes.Nodup → (∀ p ∈ routes, p.1 ≠ p.2 ∧ (p.2, p.1) ∈ routes) →
        (pairRoutes routes).length ≤ routes.length / 2) := by
  refine ⟨pairRoutesGo_length_le routes [], ?_, ?_⟩
  · intro p hp
    rw [pairRoutes, countP_key_pairRoutesGo]
    have hmem : undirKey p ∈ routes.map undirKey := List.mem_map_of_mem _ hp
    simp [hmem]
  · intro hnd hsym
    rw [pairRoutes_length_eq_card_keys]
    have := card_keys_le_half routes hnd hsym
    omega

/-- Witness for C1 on the concrete symmetric route set
`[(0,1), (1,0), (2,3), (3,2)]`: the pairer emits 2 ≤ 4/2 pairs, and the
route (1,0) is covered by exactly one emitted pair. -/
theorem C1_pairer_witness :
    (pairRoutes [((0 : ℕ), (1 : ℕ)), (1, 0), (2, 3), (3, 2)]).length ≤
      ([((0 : ℕ), (1 : ℕ)), (1, 0), (2, 3), (3, 2)].length) / 2
    ∧ (pairRoutes [((0 : ℕ), (1 : ℕ)), (1, 0), (2, 3), (3, 2)]).countP
        (fun q => undirKey q = undirKey ((1 : ℕ), (0 : ℕ))) = 1 :=
  ⟨(C1_pairer_amended [((0 : ℕ), (1 : ℕ)), (1, 0), (2, 3), (3, 2)]).2.2
      (by decide) (by decide),
   (C1_pairer_amended [((0 : ℕ), (1 : ℕ)), (1, 0), (2, 3), (3, 2)]).2.1
      ((1 : ℕ), (0 : ℕ)) (by decide)⟩

/-! ### SQLite store model (`db.py` SCHEMA_SQL; writer `_db_writer` in
schedules.py lines 107-150)

Tables are modelled as lists of rows in insertion order. SQLite's
`INSERT OR REPLACE` deletes every existing row that conflicts with the
new row on one of the table's uniqueness constraints and then inserts
the new row. -/

/-- A row of the `schedules` table, fields in the insert column order
used by `_db_writer`. -/
structure ScheduleRow where
  origin : Str
  destination : Str
  airline : Str
  year : Nat
  month : Nat
  day : Nat
  flightNumber : Str
  departureTime : Str
  arrivalTime : Str
  carrier : Str
  scrapedAt : Str
deriving DecidableEq

/-- The column tuple of the `schedules` UNIQUE constraint in SCHEMA_SQL:
`UNIQUE(origin, destination, year, month, day, flight_number)`.
The airline column is *not* part of this constraint. -/
def schedKey (r : ScheduleRow) : Str × Str × Nat × Nat × Nat × Str :=
  (r.origin, r.destination, r.year, r.month, r.day, r.flightNumber)

/-- SQLite `INSERT OR REPLACE` semantics over a list of unique-key
projections: delete conflicting rows, then append the new row. The `id`
primary keys are autoincrement columns never supplied by the writer, so
they never conflict and are not modelled. -/
def insertOrReplace {α κ : Type} [DecidableEq κ]
    (keys : List (α → κ)) (tbl : List α) (r : α) : List α :=
  tbl.filter (fun x => decide (∀ k ∈ keys, k x ≠ k r)) ++ [r]

/-- Unique-key projections of the `schedules` table. -/
def schedulesKeys : List (ScheduleRow → Str × Str × Nat × Nat × Nat × Str) :=
  [schedKey]

/-- One `INSERT OR REPLACE INTO schedules` statement of `_db_writer`. -/
def upsertSchedule (tbl : List ScheduleRow) (r : ScheduleRow) :
    List ScheduleRow :=
  insertOrReplace schedulesKeys tbl r

/-- A row of the `fares` table, fields in the insert column order used
by `_db_writer`. -/
structure FareRow where
  origin : Str
  destination : Str
  airline : Str
  departureDate : Str
  arrivalDate : Str
  price : ℚ
  currency : Str
  flightNumber : Str
  scrapedAt : Str
deriving DecidableEq

/-- The `fares` table declares no UNIQUE constraint in SCHEMA_SQL. -/
def faresKeys : List (FareRow → Unit) := []

/-- One `INSERT OR REPLACE INTO fares` statement of `_db_writer`. -/
def insertFare (tbl : List FareRow) (r : FareRow) : List FareRow :=
  insertOrReplace faresKeys tbl r

/-- The fare-row loop of one `_db_writer` batch. -/
def writeFareBatch (tbl : List FareRow) (rows : List FareRow) :
    List FareRow :=
  rows.foldl insertFare tbl

/-- The schedule-row loop of one `_db_writer` batch. -/
def writeSchedBatch (tbl : List ScheduleRow) (rows : List ScheduleRow) :
    List ScheduleRow :=
  rows.foldl upsertSchedule tbl

theorem upsertSchedule_eq (tbl : List ScheduleRow) (r : ScheduleRow) :
    upsertSchedule tbl r =
      tbl.filter (fun x => decide (schedKey x ≠ schedKey r)) ++ [r] := by
  unfold upsertSchedule insertOrReplace schedulesKeys
  congr 1
  apply List.filter_congr
  intro x _
  rw [decide_eq_decide]
  simp

theorem insertFare_eq (tbl : List FareRow) (r : FareRow) :
    insertFare tbl r = tbl ++ [r] := by
  unfold insertFare insertOrReplace faresKeys
  congr 1
  rw [List.filter_eq_self]
  intro x _
  simp

theorem writeFareBatch_eq (tbl rows : List FareRow) :
    writeFareBatch tbl rows = tbl ++ rows := by
  induction rows generalizing tbl with
  | nil => simp [writeFareBatch]
  | cons r rest ih =>
    calc writeFareBatch tbl (r :: rest)
        = writeFareBatch (insertFare tbl r) rest := rfl
      _ = (tbl ++ [r]) ++ rest := by rw [ih, insertFare_eq]
      _ = tbl ++ (r :: rest) := by simp

/-- Length of the schedules filter when the incoming key is present and
keys are pairwise distinct. -/
theorem filter_length_of_key_mem (tbl : List ScheduleRow) (r : ScheduleRow)
    (hnd : (tbl.map schedKey).Nodup) (hmem : schedKey r ∈ tbl.map schedKey) :
    (tbl.filter (fun x => decide (schedKey x ≠ schedKey r))).length + 1 =
      tbl.length := by
  induction tbl with
  | nil => simp at hmem
  | cons x rest ih =>
    rw [List.map_cons, List.nodup_cons] at hnd
    rw [List.map_cons, List.mem_cons] at hmem
    by_cases hx : schedKey x = schedKey r
    · have hrest : rest.filter (fun y => decide (schedKey y ≠ schedKey r)) =
          rest := by
        rw [List.filter_eq_self]
        intro y hy
        simp only [decide_eq_true_eq]
        intro he
        exact hnd.1 (hx ▸ he ▸ List.mem_map_of_mem schedKey hy)
      have hpx : ¬ (decide (schedKey x ≠ schedKey r) = true) := by simp [hx]
      rw [List.filter_cons, if_neg hpx, hrest]
      simp
    · have hxne : (schedKey r = schedKey x) → False := fun he => hx he.symm
      have hmem2 : schedKey r ∈ rest.map schedKey := by
        rcases hmem with h | h
        · exact absurd h hxne
        · exact h
      simp only [List.filter_cons, decide_eq_true_eq]
      rw [if_pos (by simpa using hx)]
      simp only [List.length_cons]
      rw [← ih hnd.2 hmem2]

/-- Upsert preserves pairwise-distinct schedule keys. -/
theorem upsertSchedule_keys_nodup (tbl : List ScheduleRow) (r : ScheduleRow)
    (hnd : (tbl.map schedKey).Nodup) :
    ((upsertSchedule tbl r).map schedKey).Nodup := by
  rw [upsertSchedule_eq, List.map_append, List.nodup_append]
  refine ⟨?_, by simp, ?_⟩
  · exact hnd.sublist ((List.filter_sublist tbl).map schedKey)
  · intro a ha hb
    simp only [List.map_cons, List.map_nil, List.mem_singleton] at hb
    rw [List.mem_map] at ha
    obtain ⟨x, hx, hxa⟩ := ha
    have := List.of_mem_filter hx
    simp only [decide_eq_true_eq] at this
    exact this (hxa ▸ hb)

/-- C2: the claim fails — the `schedules` UNIQUE constraint omits the
airline column, so a row identical to a stored one except for its
airline replaces it rather than being kept as a distinct row: after the
two upserts below the table holds one row, not two. -/
theorem C2_schedules_key_counterexample :
    ¬ ((upsertSchedule (upsertSchedule []
      { origin := ['B'], destination := ['L'], airline := ['W', '6'],
        year := 2030, month := 1, day := 5, flightNumber := ['0'],
        departureTime := [], arrivalTime := [], carrier := [],
        scrapedAt := [] })
      { origin := ['B'], destination := ['L'], airline := ['F', 'R'],
        year := 2030, month := 1, day := 5, flightNumber := ['0'],
        departureTime := [], arrivalTime := [], carrier := [],
        scrapedAt := [] }).length = 2) := by
  decide

/-- C2 (amended): the schedules store keeps at most one row per key
(origin, destination, year, month, day, flight_number) — airline is
*not* part of the key. Upserting a row whose key is already present
keeps the row count unchanged, a fresh key grows it by one,
key-distinctness is preserved, and changing only the airline of a row
leaves its key unchanged, so such rows replace one another. -/
theorem C2_schedules_upsert_amended (tbl : List ScheduleRow)
    (r : ScheduleRow) :
    (∀ a : Str, schedKey { r with airline := a } = schedKey r)
    ∧ ((tbl.map schedKey).Nodup → ((upsertSchedule tbl r).map schedKey).Nodup)
    ∧ ((tbl.map schedKey).Nodup → schedKey r ∈ tbl.map schedKey →
        (upsertSchedule tbl r).length = tbl.length)
    ∧ (schedKey r ∉ tbl.map schedKey →
        (upsertSchedule tbl r).length = tbl.length + 1) := by
  refine ⟨fun a => rfl, upsertSchedule_keys_nodup tbl r, ?_, ?_⟩
  · intro hnd hmem
    have hlen := filter_length_of_key_mem tbl r hnd hmem
    rw [upsertSchedule_eq, List.length_append]
    simp only [List.length_cons, List.length_nil]
    omega
  · intro hmem
    have hfil : tbl.filter (fun x => decide (schedKey x ≠ schedKey r)) =
        tbl := by
      rw [List.filter_eq_self]
      intro x hx
      simp only [decide_eq_true_eq]
      intro he
      exact hmem (he ▸ List.mem_map_of_mem schedKey hx)
    rw [upsertSchedule_eq, List.length_append, hfil]
    simp

/-- Witness for C2 on a one-row table: upserting a row with the same key
but a different airline keeps the row count at one. -/
theorem C2_schedules_upsert_witness :
    (upsertSchedule
      [{ origin := ['B'], destination := ['L'], airline := ['W', '6'],
         year := 2030, month := 1, day := 5, flightNumber := ['0'],
         departureTime := [], arrivalTime := [], carrier := [],
         scrapedAt := [] }]
      { origin := ['B'], destination := ['L'], airline := ['F', 'R'],
        year := 2030, month := 1, day := 5, flightNumber := ['0'],
        departureTime := [], arrivalTime := [], carrier := [],
        scrapedAt := [] }).length = 1 :=
  (C2_schedules_upsert_amended
    [{ origin := ['B'], destination := ['L'], airline := ['W', '6'],
       year := 2030, month := 1, day := 5, flightNumber := ['0'],
       departureTime := [], arrivalTime := [], carrier := [],
       scrapedAt := [] }]
    { origin := ['B'], destination := ['L'], airline := ['F', 'R'],
      year := 2030, month := 1, day := 5, flightNumber := ['0'],
      departureTime := [], arrivalTime := [], carrier := [],
      scrapedAt := [] }).2.2.1 (by decide) (by decide)

/-- C7: the fares store is append-only — since the `fares` table has no
uniqueness constraint in SCHEMA_SQL, the writer's
`INSERT OR REPLACE INTO fares` never conflicts, so a batch write leaves
every previously stored row in place and the row count never
decreases. -/
theorem C7_fares_append_only (tbl rows : List FareRow) :
    writeFareBatch tbl rows = tbl ++ rows
    ∧ tbl.length ≤ (writeFareBatch tbl rows).length
    ∧ (writeFareBatch tbl rows).take tbl.length = tbl := by
  have h := writeFareBatch_eq tbl rows
  refine ⟨h, ?_, ?_⟩
  · rw [h, List.length_append]
    omega
  · rw [h, List.take_left]

/-! ### Stale-route selector (`_stale_routes`, schedules.py lines 34-50,
and the selection branch of `scrape_schedules`, lines 209-215)

Timestamps are modelled as rationals measured in days; SQLite's
comparison of the ISO-8601 `scraped_at` strings is order-isomorphic to
comparison of the underlying times, and `timedelta(days=days_fresh)`
subtracts exactly `days_fresh` days. -/

/-- The module constant `AIRLINE = "W6"` of schedules.py. -/
def AIRLINE : Str := ['W', '6']

/-- A `routes` row (the columns the selector touches). -/
structure RouteRow where
  origin : Str
  destination : Str
  airline : Str
deriving DecidableEq

/-- The part of a `schedules` row read by the selector's GROUP BY
subquery. -/
structure SchedStamp where
  origin : Str
  destination : Str
  airline : Str
  scrapedAt : ℚ
deriving DecidableEq

/-- `MAX(scraped_at)` over W6 schedule rows of one (origin, destination)
group; `none` when the LEFT JOIN finds no group (`s.last IS NULL`). -/
def lastFetched (scheds : List SchedStamp) (o d : Str) : Option ℚ :=
  ((scheds.filter (fun s =>
      decide (s.airline = AIRLINE ∧ s.origin = o ∧ s.destination = d))).map
    (fun s => s.scrapedAt)).max?

/-- The SQL condition `s.last IS NULL OR s.last < cutoff`. -/
def isStale (last : Option ℚ) (cutoff : ℚ) : Bool :=
  match last with
  | none => true
  | some t => decide (t < cutoff)

/-- `_stale_routes(conn, days_fresh)`: W6 routes with no schedule data
or whose latest fetch is strictly older than `now - days_fresh`. -/
def staleRoutes (routes : List RouteRow) (scheds : List SchedStamp)
    (now daysFresh : ℚ) : List RouteRow :=
  routes.filter (fun r =>
    decide (r.airline = AIRLINE) &&
      isStale (lastFetched scheds r.origin r.destination) (now - daysFresh))

/-- The route-selection branch of `scrape_schedules`: the stale-route
selector when `days_fresh > 0`, otherwise all W6 routes. -/
def selectRoutes (routes : List RouteRow) (scheds : List SchedStamp)
    (now daysFresh : ℚ) : List RouteRow :=
  if daysFresh > 0 then staleRoutes routes scheds now daysFresh
  else routes.filter (fun r => decide (r.airline = AIRLINE))

/-- C4: a W6 route last fetched at `t0` is selected iff
`now - t0 > days_fresh`; a W6 route with no schedule data is always
selected; and with threshold 0 every W6 route is selected regardless of
its fetch history. -/
theorem C4_stale_selector (routes : List RouteRow) (scheds : List SchedStamp)
    (now daysFresh : ℚ) (r : RouteRow) (hr : r ∈ routes)
    (hair : r.airline = AIRLINE) :
    (∀ t0 : ℚ, lastFetched scheds r.origin r.destination = some t0 →
      (r ∈ staleRoutes routes scheds now daysFresh ↔ now - t0 > daysFresh))
    ∧ (lastFetched scheds r.origin r.destination = none →
        r ∈ staleRoutes routes scheds now daysFresh)
    ∧ r ∈ selectRoutes routes scheds now 0 := by
  refine ⟨?_, ?_, ?_⟩
  · intro t0 ht0
    rw [staleRoutes, List.mem_filter, ht0]
    simp only [hair, decide_True, Bool.true_and, isStale, decide_eq_true_eq]
    constructor
    · rintro ⟨-, hlt⟩
      linarith
    · intro hgt
      exact ⟨hr, by linarith⟩
  · intro hnone
    rw [staleRoutes, List.mem_filter, hnone]
    simp [hair, isStale, hr]
  · rw [selectRoutes, if_neg (by norm_num), List.mem_filter]
    simp [hr, hair]

/-- Witness for C4: a W6 route with no schedule data is selected. -/
theorem C4_stale_selector_witness :
    { origin := ['A'], destination := ['B'], airline := ['W', '6'] } ∈
      staleRoutes
        [{ origin := ['A'], destination := ['B'], airline := ['W', '6'] }]
        [] 10 3 :=
  (C4_stale_selector
    [{ origin := ['A'], destination := ['B'], airline := ['W', '6'] }]
    [] 10 3
    { origin := ['A'], destination := ['B'], airline := ['W', '6'] }
    (by decide) (by decide)).2.1 rfl

/-! ### Rate-limited client (`api.py`): `_throttle` (lines 40-53),
`WizzairSession.post` (lines 100-155), `WizzairSession.get`
(lines 157-186)

The upstream is an oracle mapping each attempt number to that attempt's
outcome. A call's observable behaviour is its return value together
with the ordered trace of throttle acquisitions, HTTP requests, session
discards/creations and sleeps. Sleep durations are in seconds;
`random.uniform(0, 5)` is an oracle `jitter` giving each attempt's
drawn jitter. -/

/-- `MAX_RETRIES = 3` (config.py line 27). -/
def MAX_RETRIES : Nat := 3

/-- `RETRY_BACKOFF = 5` seconds (config.py line 28). -/
def RETRY_BACKOFF : ℚ := 5

/-- `_POST_RETRIES = 8` (api.py line 37). -/
def POST_RETRIES : Nat := 8

/-- Outcome of one raw HTTP attempt: a status code with response body,
or a transport failure (`requests.RequestException`). -/
inductive ReqOutcome (δ : Type) where
  | status (code : Nat) (body : δ)
  | transportError
deriving DecidableEq

/-- Observable events of a client call. -/
inductive Ev where
  | throttle
  | httpPost (attempt : Nat)
  | httpGet (attempt : Nat)
  | discardSession
  | newSession
  | sleep (seconds : ℚ)
deriving DecidableEq

/-- The retry loop of `WizzairSession.post` from iteration `attempt`
with `fuel` iterations left (`fuel = _POST_RETRIES` and `attempt = 1`
at entry). Each iteration calls `_throttle()`, issues the POST, and
branches on the status in the source's order: 200 returns the body;
429/503 discards the session, sleeps `8 * attempt + jitter` and retries;
404 returns `None`; 400 before the last attempt discards the session,
sleeps 2 s and retries; anything else falls through to the linear
backoff `RETRY_BACKOFF * attempt` (skipped on the last attempt). After
the last iteration the call returns `None`. -/
def postGo {δ : Type} (resp : Nat → ReqOutcome δ) (jitter : Nat → ℚ) :
    Nat → Nat → Option δ × List Ev
  | 0, _ => (none, [])
  | fuel + 1, attempt =>
    let call : List Ev := [Ev.throttle, Ev.httpPost attempt]
    match resp attempt with
    | ReqOutcome.status code b =>
      if code = 200 then (some b, call)
      else if code = 429 ∨ code = 503 then
        let rest := postGo resp jitter fuel (attempt + 1)
        (rest.1, call ++ [Ev.discardSession,
          Ev.sleep (8 * (attempt : ℚ) + jitter attempt), Ev.newSession]
          ++ rest.2)
      else if code = 404 then (none, call)
      else if code = 400 ∧ attempt < POST_RETRIES then
        let rest := postGo resp jitter fuel (attempt + 1)
        (rest.1, call ++ [Ev.discardSession, Ev.sleep 2, Ev.newSession]
          ++ rest.2)
      else
        let rest := postGo resp jitter fuel (attempt + 1)
        (rest.1, call ++
          (if attempt < POST_RETRIES then
            [Ev.sleep (RETRY_BACKOFF * (attempt : ℚ))] else []) ++ rest.2)
    | ReqOutcome.transportError =>
      let rest := postGo resp jitter fuel (attempt + 1)
      (rest.1, call ++
        (if attempt < POST_RETRIES then
          [Ev.sleep (RETRY_BACKOFF * (attempt : ℚ))] else []) ++ rest.2)

/-- `WizzairSession.post(path, payload)`. -/
def postExec {δ : Type} (resp : Nat → ReqOutcome δ) (jitter : Nat → ℚ) :
    Option δ × List Ev :=
  postGo resp jitter POST_RETRIES 1

/-- The retry loop of `WizzairSession.get`: each iteration sleeps a
fixed 1 second (no throttle), issues the GET; 200 returns the body; 429
sleeps `RETRY_BACKOFF * attempt` and retries without touching the
session; 404 returns `None`; anything else falls through to the linear
backoff (skipped on the last attempt). -/
def getGo {δ : Type} (resp : Nat → ReqOutcome δ) :
    Nat → Nat → Option δ × List Ev
  | 0, _ => (none, [])
  | fuel + 1, attempt =>
    let call : List Ev := [Ev.sleep 1, Ev.httpGet attempt]
    match resp attempt with
    | ReqOutcome.status code b =>
      if code = 200 then (some b, call)
      else if code = 429 then
        let rest := getGo resp fuel (attempt + 1)
        (rest.1, call ++ [Ev.sleep (RETRY_BACKOFF * (attempt : ℚ))]
          ++ rest.2)
      else if code = 404 then (none, call)
      else
        let rest := getGo resp fuel (attempt + 1)
        (rest.1, call ++
          (if attempt < MAX_RETRIES then
            [Ev.sleep (RETRY_BACKOFF * (attempt : ℚ))] else []) ++ rest.2)
    | ReqOutcome.transportError =>
      let rest := getGo resp fuel (attempt + 1)
      (rest.1, call ++
        (if attempt < MAX_RETRIES then
          [Ev.sleep (RETRY_BACKOFF * (attempt : ℚ))] else []) ++ rest.2)

/-- `WizzairSession.get(path, params)`. -/
def getExec {δ : Type} (resp : Nat → ReqOutcome δ) : Option δ × List Ev :=
  getGo resp MAX_RETRIES 1

/-- Events that are outbound HTTP requests. -/
def isHttpCall : Ev → Bool
  | Ev.httpPost _ => true
  | Ev.httpGet _ => true
  | _ => false

/-- Number of HTTP attempts in a trace. -/
def attemptCount (tr : List Ev) : Nat := (tr.filter isHttpCall).length

/-- Checker for "each HTTP call is immediately preceded by a throttle
acquisition", carrying the previous event. -/
def throttledFrom : Option Ev → List Ev → Bool
  | _, [] => true
  | prev, e :: rest =>
    (!(isHttpCall e) || decide (prev = some Ev.throttle)) &&
      throttledFrom (some e) rest

/-- Every HTTP call in the trace goes through the throttle gate. -/
def everyCallThrottled (tr : List Ev) : Bool := throttledFrom none tr

theorem attemptCount_append (l1 l2 : List Ev) :
    attemptCount (l1 ++ l2) = attemptCount l1 + attemptCount l2 := by
  simp [attemptCount, List.filter_append]

theorem attemptCount_cons (e : Ev) (tr : List Ev) :
    attemptCount (e :: tr) =
      (if isHttpCall e then 1 else 0) + attemptCount tr := by
  by_cases h : isHttpCall e <;>
    simp [attemptCount, List.filter_cons, h, Nat.add_comm]

theorem attemptCount_nil : attemptCount [] = 0 := rfl

/-- Against constant 429 the POST loop uses one HTTP attempt per
iteration and ends with `None`. -/
theorem postGo_const429 {δ : Type} (b : δ) (jitter : Nat → ℚ)
    (fuel : Nat) : ∀ attempt,
    (postGo (fun _ => ReqOutcome.status 429 b) jitter fuel attempt).1 = none
    ∧ attemptCount
        (postGo (fun _ => ReqOutcome.status 429 b) jitter fuel attempt).2 =
      fuel := by
  induction fuel with
  | zero =>
    intro attempt
    exact ⟨rfl, rfl⟩
  | succ n ih =>
    intro attempt
    obtain ⟨h1, h2⟩ := ih (attempt + 1)
    constructor
    · simp only [postGo]
      norm_num
      exact h1
    · simp only [postGo]
      norm_num
      simp [attemptCount_cons, attemptCount_append, isHttpCall, h2,
        Nat.add_comm]

/-- Against constant 429 the GET loop uses one HTTP attempt per
iteration and ends with `None`. -/
theorem getGo_const429 {δ : Type} (b : δ) (fuel : Nat) : ∀ attempt,
    (getGo (fun _ => ReqOutcome.status 429 b) fuel attempt).1 = none
    ∧ attemptCount
        (getGo (fun _ => ReqOutcome.status 429 b) fuel attempt).2 = fuel := by
  induction fuel with
  | zero =>
    intro attempt
    exact ⟨rfl, rfl⟩
  | succ n ih =>
    intro attempt
    obtain ⟨h1, h2⟩ := ih (attempt + 1)
    constructor
    · simp only [getGo]
      norm_num
      exact h1
    · simp only [getGo]
      norm_num
      simp [attemptCount_cons, attemptCount_append, isHttpCall, h2,
        Nat.add_comm]

/-- The POST loop never performs more HTTP attempts than it has
iterations left. -/
theorem postGo_attempts_le {δ : Type} (resp : Nat → ReqOutcome δ)
    (jitter : Nat → ℚ) (fuel : Nat) : ∀ attempt,
    attemptCount (postGo resp jitter fuel attempt).2 ≤ fuel := by
  induction fuel with
  | zero =>
    intro attempt
    exact Nat.le_refl 0
  | succ n ih =>
    intro attempt
    have h := ih (attempt + 1)
    rcases hres : resp attempt with ⟨code, b⟩ | _
    · simp only [postGo, hres]
      by_cases h200 : code = 200
      · simp [h200, attemptCount_cons, attemptCount_nil, isHttpCall]
      · by_cases h429 : code = 429 ∨ code = 503
        · simp [h200, h429, attemptCount_cons, attemptCount_append,
            attemptCount_nil, isHttpCall]
          omega
        · by_cases h404 : code = 404
          · simp [h200, h429, h404, attemptCount_cons, attemptCount_nil,
              isHttpCall]
          · by_cases h400 : code = 400 ∧ attempt < POST_RETRIES
            · simp [h200, h429, h404, h400, attemptCount_cons,
                attemptCount_append, attemptCount_nil, isHttpCall]
              omega
            · by_cases hlt : attempt < POST_RETRIES
              · have h400c : ¬ code = 400 := fun hc => h400 ⟨hc, hlt⟩
                simp [h200, h429, h404, h400c, hlt, attemptCount_cons,
                  attemptCount_append, attemptCount_nil, isHttpCall]
                omega
              · simp [h200, h429, h404, h400, hlt, attemptCount_cons,
                  attemptCount_append, attemptCount_nil, isHttpCall]
                omega
    · simp only [postGo, hres]
      by_cases hlt : attempt < POST_RETRIES
      · simp [hlt, attemptCount_cons, attemptCount_append,
          attemptCount_nil, isHttpCall]
        omega
      · simp [hlt, attemptCount_cons, attemptCount_append,
          attemptCount_nil, isHttpCall]
        omega

/-- The GET loop never performs more HTTP attempts than it has
iterations left. -/
theorem getGo_attempts_le {δ : Type} (resp : Nat → ReqOutcome δ)
    (fuel : Nat) : ∀ attempt,
    attemptCount (getGo resp fuel attempt).2 ≤ fuel := by
  induction fuel with
  | zero =>
    intro attempt
    exact Nat.le_refl 0
  | succ n ih =>
    intro attempt
    have h := ih (attempt + 1)
    rcases hres : resp attempt with ⟨code, b⟩ | _
    · simp only [getGo, hres]
      by_cases h200 : code = 200
      · simp [h200, attemptCount_cons, attemptCount_nil, isHttpCall]
      · by_cases h429 : code = 429
        · simp [h200, h429, attemptCount_cons, attemptCount_append,
            attemptCount_nil, isHttpCall]
          omega
        · by_cases h404 : code = 404
          · simp [h200, h429, h404, attemptCount_cons, attemptCount_nil,
              isHttpCall]
          · by_cases hlt : attempt < MAX_RETRIES
            · simp [h200, h429, h404, hlt, attemptCount_cons,
                attemptCount_append, attemptCount_nil, isHttpCall]
              omega
            · simp [h200, h429, h404, hlt, attemptCount_cons,
                attemptCount_append, attemptCount_nil, isHttpCall]
              omega
    · simp only [getGo, hres]
      by_cases hlt : attempt < MAX_RETRIES
      · simp [hlt, attemptCount_cons, attemptCount_append,
          attemptCount_nil, isHttpCall]
        omega
      · simp [hlt, attemptCount_cons, attemptCount_append,
          attemptCount_nil, isHttpCall]
        omega

/-- C5: against an upstream answering 429 on every attempt, `post`
performs exactly `_POST_RETRIES = 8` HTTP attempts and returns `None`,
`get` performs exactly `MAX_RETRIES = 3` attempts and returns `None`,
and no run of either loop ever exceeds its configured attempt bound. -/
theorem C5_retry_bound {δ : Type} (b : δ) (jitter : Nat → ℚ) :
    (postExec (fun _ => ReqOutcome.status 429 b) jitter).1 = none
    ∧ attemptCount (postExec (fun _ => ReqOutcome.status 429 b) jitter).2 =
        POST_RETRIES
    ∧ (getExec (fun _ => ReqOutcome.status 429 b)).1 = none
    ∧ attemptCount (getExec (fun _ => ReqOutcome.status 429 b)).2 =
        MAX_RETRIES
    ∧ (∀ resp : Nat → ReqOutcome δ, ∀ attempt : Nat,
        attemptCount (postGo resp jitter POST_RETRIES attempt).2 ≤
          POST_RETRIES
        ∧ attemptCount (getGo resp MAX_RETRIES attempt).2 ≤ MAX_RETRIES) :=
  ⟨(postGo_const429 b jitter POST_RETRIES 1).1,
   (postGo_const429 b jitter POST_RETRIES 1).2,
   (getGo_const429 b MAX_RETRIES 1).1,
   (getGo_const429 b MAX_RETRIES 1).2,
   fun resp attempt =>
     ⟨postGo_attempts_le resp jitter POST_RETRIES attempt,
      getGo_attempts_le resp MAX_RETRIES attempt⟩⟩

/-- A POST iteration that sees 429 or 503 discards the session, sleeps
the growing backoff `8·attempt` plus the drawn jitter, opens a new
session, and retries. -/
theorem postGo_rate_limited {δ : Type} (resp : Nat → ReqOutcome δ)
    (jitter : Nat → ℚ) (fuel attempt code : Nat) (b : δ)
    (hres : resp attempt = ReqOutcome.status code b)
    (hcode : code = 429 ∨ code = 503) :
    postGo resp jitter (fuel + 1) attempt =
      ((postGo resp jitter fuel (attempt + 1)).1,
        Ev.throttle :: Ev.httpPost attempt :: Ev.discardSession ::
        Ev.sleep (8 * (attempt : ℚ) + jitter attempt) :: Ev.newSession ::
        (postGo resp jitter fuel (attempt + 1)).2) := by
  have h200 : ¬ code = 200 := by rcases hcode with h | h <;> omega
  simp [postGo, hres, h200, hcode]

/-- A GET iteration that sees 429 sleeps the jitter-free linear backoff
`RETRY_BACKOFF·attempt` and retries without touching the session. -/
theorem getGo_429_step {δ : Type} (resp : Nat → ReqOutcome δ)
    (fuel attempt : Nat) (b : δ)
    (hres : resp attempt = ReqOutcome.status 429 b) :
    getGo resp (fuel + 1) attempt =
      ((getGo resp fuel (attempt + 1)).1,
        Ev.sleep 1 :: Ev.httpGet attempt ::
        Ev.sleep (RETRY_BACKOFF * (attempt : ℚ)) ::
        (getGo resp fuel (attempt + 1)).2) := by
  simp [getGo, hres]

/-- GET traces contain neither session discards nor throttle
acquisitions regardless of the upstream's behaviour. -/
theorem getGo_events {δ : Type} (resp : Nat → ReqOutcome δ)
    (fuel : Nat) : ∀ attempt,
    Ev.discardSession ∉ (getGo resp fuel attempt).2
    ∧ Ev.throttle ∉ (getGo resp fuel attempt).2 := by
  induction fuel with
  | zero =>
    intro attempt
    exact ⟨List.not_mem_nil _, List.not_mem_nil _⟩
  | succ n ih =>
    intro attempt
    obtain ⟨h1, h2⟩ := ih (attempt + 1)
    rcases hres : resp attempt with ⟨code, b⟩ | _
    · simp only [getGo, hres]
      by_cases h200 : code = 200
      · simp [h200]
      · by_cases h429 : code = 429
        · simp [h200, h429, h1, h2]
        · by_cases h404 : code = 404
          · simp [h200, h429, h404]
          · by_cases hlt : attempt < MAX_RETRIES
            · simp [h200, h429, h404, hlt, h1, h2]
            · simp [h200, h429, h404, hlt, h1, h2]
    · simp only [getGo, hres]
      by_cases hlt : attempt < MAX_RETRIES
      · simp [hlt, h1, h2]
      · simp [hlt, h1, h2]

/-- C6: the claim fails for GET — a GET request that receives 429 on
every attempt performs HTTP calls yet its trace contains no session
discard at all. -/
theorem C6_backoff_counterexample :
    Ev.httpGet 1 ∈ (getExec (fun _ => ReqOutcome.status 429 (0 : Nat))).2
    ∧ Ev.discardSession ∉
        (getExec (fun _ => ReqOutcome.status 429 (0 : Nat))).2 := by
  decide

/-- C6 (amended): rate-limit handling is asymmetric between the two
verbs. A POST that receives 429 or 503 discards the session and waits
`8·attempt` seconds plus random jitter before retrying; a GET never
discards the session, and on 429 it waits the jitter-free linear
backoff `RETRY_BACKOFF·attempt` before retrying. -/
theorem C6_backoff_amended {δ : Type} (resp : Nat → ReqOutcome δ)
    (jitter : Nat → ℚ) (fuel attempt code : Nat) (b : δ) :
    (resp attempt = ReqOutcome.status code b →
      code = 429 ∨ code = 503 →
      postGo resp jitter (fuel + 1) attempt =
        ((postGo resp jitter fuel (attempt + 1)).1,
          Ev.throttle :: Ev.httpPost attempt :: Ev.discardSession ::
          Ev.sleep (8 * (attempt : ℚ) + jitter attempt) :: Ev.newSession ::
          (postGo resp jitter fuel (attempt + 1)).2))
    ∧ (∀ a : Nat, Ev.discardSession ∉ (getGo resp fuel a).2)
    ∧ (resp attempt = ReqOutcome.status 429 b →
        getGo resp (fuel + 1) attempt =
          ((getGo resp fuel (attempt + 1)).1,
            Ev.sleep 1 :: Ev.httpGet attempt ::
            Ev.sleep (RETRY_BACKOFF * (attempt : ℚ)) ::
            (getGo resp fuel (attempt + 1)).2)) :=
  ⟨fun hres hcode =>
      postGo_rate_limited resp jitter fuel attempt code b hres hcode,
   fun a => (getGo_events resp fuel a).1,
   fun hres => getGo_429_step resp fuel attempt b hres⟩

/-- Witness for C6: one GET iteration against a 429 upstream, showing
the linear backoff with no session discard. -/
theorem C6_backoff_witness :
    getGo (fun _ => ReqOutcome.status 429 (0 : Nat)) 3 1 =
      ((getGo (fun _ => ReqOutcome.status 429 (0 : Nat)) 2 2).1,
        Ev.sleep 1 :: Ev.httpGet 1 ::
        Ev.sleep (RETRY_BACKOFF * ((1 : Nat) : ℚ)) ::
        (getGo (fun _ => ReqOutcome.status 429 (0 : Nat)) 2 2).2) :=
  (C6_backoff_amended (fun _ => ReqOutcome.status 429 (0 : Nat))
    (fun _ => 0) 2 1 429 0).2.2 rfl

/-- Every POST trace keeps each HTTP request immediately after a
throttle acquisition, for any previous event. -/
theorem throttledFrom_postGo {δ : Type} (resp : Nat → ReqOutcome δ)
    (jitter : Nat → ℚ) (fuel : Nat) : ∀ attempt prev,
    throttledFrom prev (postGo resp jitter fuel attempt).2 = true := by
  induction fuel with
  | zero =>
    intro attempt prev
    rfl
  | succ n ih =>
    intro attempt prev
    rcases hres : resp attempt with ⟨code, b⟩ | _
    · simp only [postGo, hres]
      by_cases h200 : code = 200
      · simp [h200, throttledFrom, isHttpCall]
      · by_cases h429 : code = 429 ∨ code = 503
        · simp [h200, h429, throttledFrom, isHttpCall, ih]
        · by_cases h404 : code = 404
          · simp [h200, h429, h404, throttledFrom, isHttpCall]
          · by_cases h400 : code = 400 ∧ attempt < POST_RETRIES
            · simp [h200, h429, h404, h400, throttledFrom, isHttpCall, ih]
            · by_cases hlt : attempt < POST_RETRIES
              · have h400c : ¬ code = 400 := fun hc => h400 ⟨hc, hlt⟩
                simp [h200, h429, h404, h400c, hlt, throttledFrom,
                  isHttpCall, ih]
              · simp [h200, h429, h404, h400, hlt, throttledFrom,
                  isHttpCall, ih]
    · simp only [postGo, hres]
      by_cases hlt : attempt < POST_RETRIES
      · simp [hlt, throttledFrom, isHttpCall, ih]
      · simp [hlt, throttledFrom, isHttpCall, ih]

/-- C8: the claim fails — a GET request's HTTP call is not preceded by
any throttle acquisition (GET sleeps a fixed second instead of using
the shared gate). -/
theorem C8_throttle_counterexample :
    ¬ (everyCallThrottled
        (getExec (fun _ => ReqOutcome.status 200 (0 : Nat))).2 = true) := by
  decide

/-- C8 (amended): only POST traffic passes through the shared throttle
gate — every HTTP request in a POST trace is immediately preceded by a
throttle acquisition, while GET requests never acquire the throttle at
all. -/
theorem C8_throttle_amended {δ : Type} :
    (∀ resp : Nat → ReqOutcome δ, ∀ jitter : Nat → ℚ,
      everyCallThrottled (postExec resp jitter).2 = true)
    ∧ (∀ resp : Nat → ReqOutcome δ, ∀ fuel attempt : Nat,
        Ev.throttle ∉ (getGo resp fuel attempt).2) :=
  ⟨fun resp jitter => throttledFrom_postGo resp jitter POST_RETRIES 1 none,
   fun resp fuel attempt => (getGo_events resp fuel attempt).2⟩

/-! ### Timetable parsing (`_parse_flights`, schedules.py lines 66-104) -/

/-- The fields of one flight object read by `_parse_flights`:
`departureDates`, `price.amount` (absent when `get` returns nothing) and
`price.currencyCode` (defaulted to `"EUR"` when absent). -/
structure RawFlight where
  departureDates : List Str
  priceAmount : Option ℚ
  currencyCode : Option Str
deriving DecidableEq

/-- Python `s.split(sep)` for a one-character separator: split at every
occurrence; `"".split(sep) == [""]`. -/
def splitOnChar (c : Char) : Str → List Str
  | [] => [[]]
  | x :: xs =>
    if x = c then [] :: splitOnChar c xs
    else
      match splitOnChar c xs with
      | [] => [[x]]
      | p :: ps => (x :: p) :: ps

/-- A non-empty all-digit string as a number. -/
def digitsToNat (s : Str) : Option Nat :=
  if s.isEmpty then none
  else if s.all Char.isDigit then
    some (s.foldl (fun n c => 10 * n + (c.toNat - 48)) 0)
  else none

def isLeapYear (y : Nat) : Bool :=
  (y % 4 == 0 && y % 100 != 0) || y % 400 == 0

def daysInMonth (y m : Nat) : Nat :=
  if m = 2 then (if isLeapYear y then 29 else 28)
  else if m = 4 ∨ m = 6 ∨ m = 9 ∨ m = 11 then 30
  else 31

/-- Models `datetime.strptime(date_part, "%Y-%m-%d")`: three
dash-separated digit groups forming a valid calendar date; `None`
models the `ValueError` branch that skips the entry. -/
def parseYMD (s : Str) : Option (Nat × Nat × Nat) :=
  match splitOnChar '-' s with
  | [ys, ms, ds] =>
    match digitsToNat ys, digitsToNat ms, digitsToNat ds with
    | some y, some m, some d =>
      if 1 ≤ m ∧ m ≤ 12 ∧ 1 ≤ d ∧ d ≤ daysInMonth y m then some (y, m, d)
      else none
    | _, _, _ => none
  | _ => none

/-- `flight_id = "W6-" + time_part.replace(":", "")[:4]`. -/
def flightId (timePart : Str) : Str :=
  ['W', '6', '-'] ++ (timePart.filter (fun c => c ≠ ':')).take 4

/-- Handling of one `departureDates` entry: split on `"T"`, require
exactly two parts, parse the date, then build the schedule row and —
when a price is present — the fare row, exactly as appended by
`_parse_flights`. -/
def parseDeparture (origin dest scrapedAt : Str) (price : Option ℚ)
    (currency : Str) (depDt : Str) :
    Option (ScheduleRow × Option FareRow) :=
  match splitOnChar 'T' depDt with
  | [datePart, timePart] =>
    match parseYMD datePart with
    | some (y, m, d) =>
      let fid := flightId timePart
      some ({ origin := origin, destination := dest, airline := AIRLINE,
              year := y, month := m, day := d, flightNumber := fid,
              departureTime := timePart, arrivalTime := [],
              carrier := ['W', '6'], scrapedAt := scrapedAt },
            price.map (fun p =>
              { origin := origin, destination := dest, airline := AIRLINE,
                departureDate := datePart, arrivalDate := [], price := p,
                currency := currency, flightNumber := fid,
                scrapedAt := scrapedAt }))
    | none => none
  | _ => none

/-- The `for dep_dt in dep_dates` loop of `_parse_flights`. -/
def parseDepartures (origin dest scrapedAt : Str) (price : Option ℚ)
    (currency : Str) : List Str → List ScheduleRow × List FareRow
  | [] => ([], [])
  | depDt :: rest =>
    let acc := parseDepartures origin dest scrapedAt price currency rest
    match parseDeparture origin dest scrapedAt price currency depDt with
    | none => acc
    | some (s, none) => (s :: acc.1, acc.2)
    | some (s, some f) => (s :: acc.1, f :: acc.2)

/-- The per-flight body of `_parse_flights`. -/
def parseFlight (origin dest scrapedAt : Str) (fl : RawFlight) :
    List ScheduleRow × List FareRow :=
  parseDepartures origin dest scrapedAt fl.priceAmount
    (fl.currencyCode.getD ['E', 'U', 'R']) fl.departureDates

/-- `_parse_flights(flights, origin, dest, scraped_at)`. -/
def parseFlights (flights : List RawFlight) (origin dest scrapedAt : Str) :
    List ScheduleRow × List FareRow :=
  match flights with
  | [] => ([], [])
  | fl :: rest =>
    let pr := parseFlight origin dest scrapedAt fl
    let acc := parseFlights rest origin dest scrapedAt
    (pr.1 ++ acc.1, pr.2 ++ acc.2)

/-- Two departure-time strings agree through the minute: both start
with the same `HH:MM` prefix (two colon-free characters, a colon, two
colon-free characters). -/
def sameMinute (t1 t2 : Str) : Prop :=
  ∃ hh mm r1 r2 : Str, hh.length = 2 ∧ mm.length = 2 ∧
    (∀ c ∈ hh, c ≠ ':') ∧ (∀ c ∈ mm, c ≠ ':') ∧
    t1 = hh ++ ':' :: (mm ++ r1) ∧ t2 = hh ++ ':' :: (mm ++ r2)

/-- Times that agree through the minute synthesize the same flight id:
only the first four characters after colon removal survive. -/
theorem flightId_sameMinute (t1 t2 : Str) (h : sameMinute t1 t2) :
    flightId t1 = flightId t2 := by
  obtain ⟨hh, mm, r1, r2, hl1, hl2, hc1, hc2, he1, he2⟩ := h
  have key : ∀ r : Str,
      ((hh ++ ':' :: (mm ++ r)).filter (fun c => c ≠ ':')).take 4 =
        hh ++ mm := by
    intro r
    have hfh : hh.filter (fun c => decide (c ≠ ':')) = hh := by
      rw [List.filter_eq_self]
      intro c hc
      simpa using hc1 c hc
    have hfm : mm.filter (fun c => decide (c ≠ ':')) = mm := by
      rw [List.filter_eq_self]
      intro c hc
      simpa using hc2 c hc
    have hlen : (hh ++ mm).length = 4 := by
      rw [List.length_append, hl1, hl2]
    calc ((hh ++ ':' :: (mm ++ r)).filter (fun c => c ≠ ':')).take 4
        = (hh ++ (mm ++ r.filter (fun c => decide (c ≠ ':')))).take 4 := by
          rw [List.filter_append, List.filter_cons]
          simp only [decide_eq_true_eq]
          rw [if_neg (by simp), List.filter_append, hfh, hfm]
      _ = ((hh ++ mm) ++ r.filter (fun c => decide (c ≠ ':'))).take 4 := by
          rw [List.append_assoc]
      _ = ((hh ++ mm) ++ r.filter (fun c => decide (c ≠ ':'))).take
            (hh ++ mm).length := by rw [hlen]
      _ = hh ++ mm := List.take_left _ _
  rw [flightId, flightId, he1, he2, key r1, key r2]

/-- Any schedule row produced for one departure entry carries the
requested origin/destination and a flight number synthesized from its
stored departure time. -/
theorem parseDeparture_shape (origin dest scrapedAt : Str)
    (price : Option ℚ) (currency : Str) (depDt : Str) (s : ScheduleRow)
    (fOpt : Option FareRow)
    (h : parseDeparture origin dest scrapedAt price currency depDt =
      some (s, fOpt)) :
    s.origin = origin ∧ s.destination = dest ∧
      s.flightNumber = flightId s.departureTime := by
  unfold parseDeparture at h
  split at h
  · split at h
    · rename_i y m d heq
      injection h with h2
      injection h2 with hs hf
      subst hs
      exact ⟨rfl, rfl, rfl⟩
    · exact absurd h (by simp)
  · exact absurd h (by simp)

/-- Membership in the departures loop output comes from one entry. -/
theorem mem_parseDepartures (origin dest scrapedAt : Str)
    (price : Option ℚ) (currency : Str) (deps : List Str)
    (s : ScheduleRow)
    (h : s ∈ (parseDepartures origin dest scrapedAt price currency
      deps).1) :
    ∃ depDt ∈ deps, ∃ fOpt,
      parseDeparture origin dest scrapedAt price currency depDt =
        some (s, fOpt) := by
  induction deps with
  | nil => simp [parseDepartures] at h
  | cons depDt rest ih =>
    rw [parseDepartures] at h
    rcases hp : parseDeparture origin dest scrapedAt price currency depDt
      with - | ⟨s0, fOpt0⟩
    · rw [hp] at h
      obtain ⟨d0, hd0, hf⟩ := ih h
      exact ⟨d0, List.mem_cons_of_mem _ hd0, hf⟩
    · rw [hp] at h
      rcases fOpt0 with - | f0
      · simp only [List.mem_cons] at h
        rcases h with h | h
        · exact ⟨depDt, List.mem_cons_self _ _, none, h ▸ hp⟩
        · obtain ⟨d0, hd0, hf⟩ := ih h
          exact ⟨d0, List.mem_cons_of_mem _ hd0, hf⟩
      · simp only [List.mem_cons] at h
        rcases h with h | h
        · exact ⟨depDt, List.mem_cons_self _ _, some f0, h ▸ hp⟩
        · obtain ⟨d0, hd0, hf⟩ := ih h
          exact ⟨d0, List.mem_cons_of_mem _ hd0, hf⟩

/-- Membership in the parser output comes from one flight's entry. -/
theorem mem_parseFlights (flights : List RawFlight)
    (origin dest scrapedAt : Str) (s : ScheduleRow)
    (h : s ∈ (parseFlights flights origin dest scrapedAt).1) :
    ∃ fl ∈ flights, ∃ depDt ∈ fl.departureDates, ∃ fOpt,
      parseDeparture origin dest scrapedAt fl.priceAmount
        (fl.currencyCode.getD ['E', 'U', 'R']) depDt = some (s, fOpt) := by
  induction flights with
  | nil => simp [parseFlights] at h
  | cons fl rest ih =>
    rw [parseFlights] at h
    simp only [List.mem_append] at h
    rcases h with h | h
    · obtain ⟨d0, hd0, hf⟩ :=
        mem_parseDepartures origin dest scrapedAt fl.priceAmount
          (fl.currencyCode.getD ['E', 'U', 'R']) fl.departureDates s h
      exact ⟨fl, List.mem_cons_self _ _, d0, hd0, hf⟩
    · obtain ⟨fl0, hfl0, d0, hd0, hf⟩ := ih h
      exact ⟨fl0, List.mem_cons_of_mem _ hfl0, d0, hd0, hf⟩

/-- C10: every schedule row emitted by `_parse_flights` carries
`flight_number = "W6-" +` the first four characters of its departure
time with colons removed — a function of the departure time alone;
consequently any two rows of one parse sharing year, month and day
whose departure times agree through the minute have identical schedule
keys. -/
theorem C10_flight_number (flights : List RawFlight)
    (origin dest scrapedAt : Str) :
    (∀ r ∈ (parseFlights flights origin dest scrapedAt).1,
      r.origin = origin ∧ r.destination = dest ∧
        r.flightNumber = flightId r.departureTime)
    ∧ (∀ r1 ∈ (parseFlights flights origin dest scrapedAt).1,
       ∀ r2 ∈ (parseFlights flights origin dest scrapedAt).1,
        r1.year = r2.year → r1.month = r2.month → r1.day = r2.day →
        sameMinute r1.departureTime r2.departureTime →
        schedKey r1 = schedKey r2) := by
  have hshape : ∀ r ∈ (parseFlights flights origin dest scrapedAt).1,
      r.origin = origin ∧ r.destination = dest ∧
        r.flightNumber = flightId r.departureTime := by
    intro r hr
    obtain ⟨fl, -, d0, -, fOpt, hf⟩ :=
      mem_parseFlights flights origin dest scrapedAt r hr
    exact parseDeparture_shape origin dest scrapedAt fl.priceAmount
      (fl.currencyCode.getD ['E', 'U', 'R']) d0 r fOpt hf
  refine ⟨hshape, ?_⟩
  intro r1 h1 r2 h2 hy hm hd hmin
  obtain ⟨ho1, hd1, hf1⟩ := hshape r1 h1
  obtain ⟨ho2, hd2, hf2⟩ := hshape r2 h2
  have hfn : r1.flightNumber = r2.flightNumber := by
    rw [hf1, hf2, flightId_sameMinute _ _ hmin]
  rw [schedKey, schedKey, ho1, hd1, ho2, hd2, hy, hm, hd, hfn]

/-- Witness for C10: the departures `2030-01-05T06:30:00` and
`2030-01-05T06:30:45` of one flight produce two schedule rows with
identical keys (both get flight number `W6-0630`). -/
theorem C10_flight_number_witness :
    schedKey
      { origin := ['A'], destination := ['B'], airline := ['W', '6'],
        year := 2030, month := 1, day := 5,
        flightNumber := ['W', '6', '-', '0', '6', '3', '0'],
        departureTime := ['0', '6', ':', '3', '0', ':', '0', '0'],
        arrivalTime := [], carrier := ['W', '6'], scrapedAt := ['s'] } =
    schedKey
      { origin := ['A'], destination := ['B'], airline := ['W', '6'],
        year := 2030, month := 1, day := 5,
        flightNumber := ['W', '6', '-', '0', '6', '3', '0'],
        departureTime := ['0', '6', ':', '3', '0', ':', '4', '5'],
        arrivalTime := [], carrier := ['W', '6'], scrapedAt := ['s'] } :=
  (C10_flight_number
    [{ departureDates :=
        [['2', '0', '3', '0', '-', '0', '1', '-', '0', '5', 'T',
          '0', '6', ':', '3', '0', ':', '0', '0'],
         ['2', '0', '3', '0', '-', '0', '1', '-', '0', '5', 'T',
          '0', '6', ':', '3', '0', ':', '4', '5']],
       priceAmount := none, currencyCode := none }]
    ['A'] ['B'] ['s']).2
    { origin := ['A'], destination := ['B'], airline := ['W', '6'],
      year := 2030, month := 1, day := 5,
      flightNumber := ['W', '6', '-', '0', '6', '3', '0'],
      departureTime := ['0', '6', ':', '3', '0', ':', '0', '0'],
      arrivalTime := [], carrier := ['W', '6'], scrapedAt := ['s'] }
    (by decide)
    { origin := ['A'], destination := ['B'], airline := ['W', '6'],
      year := 2030, month := 1, day := 5,
      flightNumber := ['W', '6', '-', '0', '6', '3', '0'],
      departureTime := ['0', '6', ':', '3', '0', ':', '4', '5'],
      arrivalTime := [], carrier := ['W', '6'], scrapedAt := ['s'] }
    (by decide) rfl rfl rfl
    ⟨['0', '6'], ['3', '0'], [':', '0', '0'], [':', '4', '5'],
      by decide, by decide, by decide, by decide, by decide, by decide⟩

/-! ### Worker (`_worker`, schedules.py lines 153-196)

The worker's only effects are its local error counter and the batches
it puts on the write queue; `sess.post` is an oracle giving, per
(pair, window) task, either a raised exception, `None` (no data), or a
parsed response body. -/

/-- A crawl window as the pair of its formatted date bounds. -/
abbrev Window := Str × Str

/-- The timetable response fields read by `_worker`. -/
structure TimetableResponse where
  outboundFlights : List RawFlight
  returnFlights : List RawFlight
deriving DecidableEq

/-- Worker-visible state: the local error count and the queued batches
in order. -/
structure WorkerAcc where
  errors : Nat
  queued : List (List ScheduleRow × List FareRow)
deriving DecidableEq

/-- Outcomes of `sess.post` as seen by `_worker`: an exception, or a
value that is `None`/falsy, or response data. -/
abbrev PostOracle := (Str × Str) → Window →
  Except Str (Option TimetableResponse)

/-- One (pair, window) iteration of `_worker`: an exception increments
the local error count and continues; `None` is skipped silently; data
is parsed for both directions and enqueued when non-empty. -/
def workerStep (post : PostOracle) (scrapedAt : Str) (pr : Str × Str)
    (acc : WorkerAcc) (w : Window) : WorkerAcc :=
  match post pr w with
  | Except.error _ => { acc with errors := acc.errors + 1 }
  | Except.ok none => acc
  | Except.ok (some data) =>
    let s1f1 := parseFlights data.outboundFlights pr.1 pr.2 scrapedAt
    let s2f2 := parseFlights data.returnFlights pr.2 pr.1 scrapedAt
    let allSched := s1f1.1 ++ s2f2.1
    let allFare := s1f1.2 ++ s2f2.2
    if allSched ≠ [] ∨ allFare ≠ [] then
      { acc with queued := acc.queued ++ [(allSched, allFare)] }
    else acc

/-- The window loop of `_worker` for one pair. -/
def workerPair (post : PostOracle) (scrapedAt : Str)
    (windows : List Window) (acc : WorkerAcc) (pr : Str × Str) :
    WorkerAcc :=
  windows.foldl (workerStep post scrapedAt pr) acc

/-- `_worker`'s full pair loop, from a fresh session. -/
def runWorker (post : PostOracle) (scrapedAt : Str)
    (myPairs : List (Str × Str)) (windows : List Window) : WorkerAcc :=
  myPairs.foldl (workerPair post scrapedAt windows)
    { errors := 0, queued := [] }

/-- Whether a task's post outcome was a raised exception. -/
def isRaised (o : Except Str (Option TimetableResponse)) : Bool :=
  match o with
  | Except.error _ => true
  | Except.ok _ => false

theorem workerStep_errors (post : PostOracle) (scrapedAt : Str)
    (pr : Str × Str) (acc : WorkerAcc) (w : Window) :
    (workerStep post scrapedAt pr acc w).errors =
      acc.errors + (if isRaised (post pr w) then 1 else 0) := by
  rcases hp : post pr w with e | o
  · simp [workerStep, hp, isRaised]
  · rcases o with - | data
    · simp [workerStep, hp, isRaised]
    · simp only [workerStep, hp, isRaised]
      split <;> rfl

theorem workerPair_errors (post : PostOracle) (scrapedAt : Str)
    (windows : List Window) : ∀ acc pr,
    (workerPair post scrapedAt windows acc pr).errors =
      acc.errors + windows.countP (fun w => isRaised (post pr w)) := by
  induction windows with
  | nil =>
    intro acc pr
    simp [workerPair]
  | cons w ws ih =>
    intro acc pr
    have hstep := workerStep_errors post scrapedAt pr acc w
    have htail := ih (workerStep post scrapedAt pr acc w) pr
    rw [workerPair, List.foldl_cons]
    rw [workerPair] at htail
    rw [htail, hstep, List.countP_cons]
    by_cases hw : isRaised (post pr w)
    · simp [hw]
      omega
    · simp [hw]

theorem runWorker_errors_aux (post : PostOracle) (scrapedAt : Str)
    (windows : List Window) : ∀ (pairs : List (Str × Str)) acc,
    (pairs.foldl (workerPair post scrapedAt windows) acc).errors =
      acc.errors + (pairs.map (fun pr =>
        windows.countP (fun w => isRaised (post pr w)))).sum := by
  intro pairs
  induction pairs with
  | nil =>
    intro acc
    simp
  | cons pr rest ih =>
    intro acc
    rw [List.foldl_cons, ih, workerPair_errors, List.map_cons,
      List.sum_cons]
    omega

/-- C3: the claim fails — a task for which the client returns `None`
(retries exhausted, "no data") is skipped without incrementing the
error counter: with a single task whose outcome is `None`, the worker
finishes with zero errors, not one. -/
theorem C3_worker_counterexample :
    (runWorker (fun _ _ => Except.ok none) ['s'] [(['A'], ['B'])]
      [(['d'], ['e'])]).errors = 0
    ∧ ¬ (1 ≤ (runWorker (fun _ _ => Except.ok none) ['s']
        [(['A'], ['B'])] [(['d'], ['e'])]).errors) := by
  decide

/-- C3 (amended): a task whose client call returns `None` is skipped
silently — no error is counted, nothing is enqueued — and the worker
continues with the remaining tasks; the error counter counts exactly
the tasks whose client call raised an exception. -/
theorem C3_worker_amended (post : PostOracle) (scrapedAt : Str)
    (pairs : List (Str × Str)) (windows : List Window) (pr : Str × Str)
    (w : Window) (acc : WorkerAcc)
    (hnone : post pr w = Except.ok none) :
    workerStep post scrapedAt pr acc w = acc
    ∧ workerPair post scrapedAt (w :: windows) acc pr =
        workerPair post scrapedAt windows acc pr
    ∧ (runWorker post scrapedAt pairs windows).errors =
        (pairs.map (fun q =>
          windows.countP (fun v => isRaised (post q v)))).sum := by
  have hstep : workerStep post scrapedAt pr acc w = acc := by
    simp [workerStep, hnone]
  refine ⟨hstep, ?_, ?_⟩
  · rw [workerPair, List.foldl_cons, hstep, workerPair]
  · rw [runWorker, runWorker_errors_aux]
    simp

/-- Witness for C3: one `None` task leaves the accumulator untouched
and the run counts zero errors. -/
theorem C3_worker_witness :
    workerStep (fun _ _ => Except.ok none) ['s'] (['A'], ['B'])
      { errors := 0, queued := [] } (['d'], ['e']) =
      { errors := 0, queued := [] }
    ∧ (runWorker (fun _ _ => Except.ok none) ['s'] [(['A'], ['B'])]
        [(['d'], ['e'])]).errors =
      ([(['A'], ['B'])].map (fun q =>
        [((['d'], ['e']) : Window)].countP
          (fun v => isRaised ((fun _ _ => Except.ok none) q v)))).sum :=
  ⟨(C3_worker_amended (fun _ _ => Except.ok none) ['s'] [(['A'], ['B'])]
      [(['d'], ['e'])] (['A'], ['B']) (['d'], ['e'])
      { errors := 0, queued := [] } rfl).1,
   (C3_worker_amended (fun _ _ => Except.ok none) ['s'] [(['A'], ['B'])]
      [(['d'], ['e'])] (['A'], ['B']) (['d'], ['e'])
      { errors := 0, queued := [] } rfl).2.2⟩

/-! ### Window planner (`scrape_schedules`, schedules.py lines 231-238)

`now` is a timestamp in seconds; `timedelta(days=n)` adds `n * 86400`
seconds, and `strftime("%Y-%m-%d")` is modelled as the day ordinal of
the timestamp (calendar date strings correspond monotonically to day
ordinals, and adding whole days preserves the time of day). -/

/-- `MAX_WINDOW_DAYS = 42` (schedules.py line 27). -/
def MAX_WINDOW_DAYS : Nat := 42

def SECONDS_PER_DAY : Nat := 86400

/-- The day ordinal (`strftime("%Y-%m-%d")`) of a timestamp. -/
def dayOf (t : Nat) : Nat := t / SECONDS_PER_DAY

/-- The window-building loop of `scrape_schedules`: for each
`period in range(num_windows)` the window from
`now + period * 42 days` to `now + (period + 1) * 42 days`, formatted
as dates. -/
def mkWindows (now numWindows : Nat) : List (Nat × Nat) :=
  (List.range numWindows).map (fun period =>
    (dayOf (now + period * MAX_WINDOW_DAYS * SECONDS_PER_DAY),
     dayOf (now + (period + 1) * MAX_WINDOW_DAYS * SECONDS_PER_DAY)))

theorem dayOf_add_days (now k : Nat) :
    dayOf (now + k * SECONDS_PER_DAY) = dayOf now + k := by
  rw [dayOf, dayOf, Nat.add_mul_div_right _ _ (by decide : 0 < SECONDS_PER_DAY)]

theorem mkWindows_getElem (now numWindows i : Nat) (h : i < numWindows) :
    (mkWindows now numWindows)[i]? =
      some (dayOf now + i * MAX_WINDOW_DAYS,
            dayOf now + (i + 1) * MAX_WINDOW_DAYS) := by
  rw [mkWindows, List.getElem?_map, List.getElem?_range h]
  have h1 : now + i * MAX_WINDOW_DAYS * SECONDS_PER_DAY =
      now + (i * MAX_WINDOW_DAYS) * SECONDS_PER_DAY := by ring
  have h2 : now + (i + 1) * MAX_WINDOW_DAYS * SECONDS_PER_DAY =
      now + ((i + 1) * MAX_WINDOW_DAYS) * SECONDS_PER_DAY := by ring
  rw [Option.map_some']
  simp only [h1, h2, dayOf_add_days]

/-- C9: the planner emits exactly `num_windows` windows; window `i`
runs from day `now + 42·i` to day `now + 42·(i+1)`; every window spans
at most the upstream maximum of 42 days; the windows are pairwise
disjoint as half-open ranges; and together they cover every day of the
horizon `[now, now + num_windows · 42 days)` with no gaps. -/
theorem C9_window_planner (now numWindows : Nat) :
    (mkWindows now numWindows).length = numWindows
    ∧ (∀ i, i < numWindows →
        (mkWindows now numWindows)[i]? =
          some (dayOf now + i * MAX_WINDOW_DAYS,
                dayOf now + (i + 1) * MAX_WINDOW_DAYS))
    ∧ (∀ p ∈ mkWindows now numWindows, p.2 - p.1 ≤ MAX_WINDOW_DAYS)
    ∧ (∀ i j : Nat, ∀ p q : Nat × Nat, i < j →
        (mkWindows now numWindows)[i]? = some p →
        (mkWindows now numWindows)[j]? = some q → p.2 ≤ q.1)
    ∧ (∀ d : Nat, dayOf now ≤ d →
        d < dayOf now + numWindows * MAX_WINDOW_DAYS →
        ∃ p ∈ mkWindows now numWindows, p.1 ≤ d ∧ d < p.2) := by
  have hM : MAX_WINDOW_DAYS = 42 := rfl
  refine ⟨by simp [mkWindows], mkWindows_getElem now numWindows, ?_, ?_, ?_⟩
  · intro p hp
    rw [mkWindows, List.mem_map] at hp
    obtain ⟨i, hi, hpi⟩ := hp
    rw [List.mem_range] at hi
    have h1 : now + i * MAX_WINDOW_DAYS * SECONDS_PER_DAY =
        now + (i * MAX_WINDOW_DAYS) * SECONDS_PER_DAY := by ring
    have h2 : now + (i + 1) * MAX_WINDOW_DAYS * SECONDS_PER_DAY =
        now + ((i + 1) * MAX_WINDOW_DAYS) * SECONDS_PER_DAY := by ring
    rw [← hpi]
    simp only [h1, h2, dayOf_add_days, hM]
    omega
  · intro i j p q hij hpi hqj
    have hin : i < numWindows := by
      by_contra hge
      have hnone : (mkWindows now numWindows)[i]? = none := by
        apply List.getElem?_eq_none_iff.mpr
        simp only [mkWindows, List.length_map, List.length_range]
        omega
      rw [hnone] at hpi
      exact Option.noConfusion hpi
    have hjn : j < numWindows := by
      by_contra hge
      have hnone : (mkWindows now numWindows)[j]? = none := by
        apply List.getElem?_eq_none_iff.mpr
        simp only [mkWindows, List.length_map, List.length_range]
        omega
      rw [hnone] at hqj
      exact Option.noConfusion hqj
    rw [mkWindows_getElem now numWindows i hin] at hpi
    rw [mkWindows_getElem now numWindows j hjn] at hqj
    injection hpi with hpi
    injection hqj with hqj
    rw [← hpi, ← hqj]
    simp only [hM]
    omega
  · intro d hd hlt
    rw [hM] at hlt
    refine ⟨(dayOf now + ((d - dayOf now) / 42) * MAX_WINDOW_DAYS,
      dayOf now + ((d - dayOf now) / 42 + 1) * MAX_WINDOW_DAYS),
      ?_, ?_, ?_⟩
    · exact List.getElem?_mem
        (mkWindows_getElem now numWindows ((d - dayOf now) / 42)
          (by omega))
    · simp only [hM]
      omega
    · simp only [hM]
      omega

/-- Witness for C9 at `now = 0`, two windows: day 50 falls in the
second window `[42, 84)`. -/
theorem C9_window_planner_witness :
    ∃ p ∈ mkWindows 0 2, p.1 ≤ 50 ∧ 50 < p.2 :=
  (C9_window_planner 0 2).2.2.2.2 50 (by decide) (by decide)

end Mossina
